import Mathlib

/-!
# Verification of the checkpointed harvesting pipeline

A shallow embedding of the retry/backoff policy, the outcome
classification, the checkpointed progress model and the orchestration
loop of `enrich_investors.js` and `visible_investor_scraper.js`
(the latter file holds two scripts: a basic scraper with bounded
retries and a "full" scraper with unbounded jittered backoff).

Machine numbers are modelled as `Nat`/`Int`/`Rat` (the JavaScript
values involved stay far below 2^53, where double arithmetic is
exact).  The network is modelled as an explicit stream of classified
responses, and the orchestration loop as a fold over per-iteration
events; the trace of checkpoint saves, pauses, waits and fetch calls
is recorded explicitly.
-/

/-- A JavaScript value, as far as the frame claims need: strings,
booleans and `null`. -/
inductive JVal : Type
  | str (s : String)
  | bool (b : Bool)
  | null
  deriving DecidableEq, Repr

/-- A JavaScript object: an ordered list of key/value properties
(keys distinct in every object this development builds). -/
abbrev JObj : Type := List (String × JVal)

/-- Setting a property on a JavaScript object, as `{...o, k: v}` does:
if `k` is already a key of `o` its value is overwritten in place,
otherwise the property is appended at the end. -/
def JObj.set (o : JObj) (k : String) (v : JVal) : JObj :=
  if o.any (fun p => p.1 == k) then
    o.map (fun p => if p.1 == k then (k, v) else p)
  else
    o ++ [(k, v)]

/-- A team-member record, with exactly the fields `extractTeamMember`
in `visible_investor_scraper.js` produces (these records are what
`enrich_investors.js` reads back from `team_members.json`). -/
structure TeamMember : Type where
  id : String
  investor_id : String
  investor_slug : String
  name : String
  title : String
  linkedin_url : String
  twitter_url : String
  avatar_url : String
  scraped_at : String
  deriving DecidableEq, Repr

/-- The team-member record as the JavaScript object it is stored as. -/
def TeamMember.toObj (m : TeamMember) : JObj :=
  [("id", .str m.id),
   ("investor_id", .str m.investor_id),
   ("investor_slug", .str m.investor_slug),
   ("name", .str m.name),
   ("title", .str m.title),
   ("linkedin_url", .str m.linkedin_url),
   ("twitter_url", .str m.twitter_url),
   ("avatar_url", .str m.avatar_url),
   ("scraped_at", .str m.scraped_at)]

namespace EnrichInvestors

/-- The `!contactOutProfile` branch of `extractEnrichedData` in
`enrich_investors.js`: `return {...originalMember, enriched: false,
enriched_at: null}`. -/
def extractEnrichedDataNotFound (originalMember : JObj) : JObj :=
  (originalMember.set "enriched" (.bool false)).set "enriched_at" .null

end EnrichInvestors

/-- C10: for every team member record `m`, `extractEnrichedData(m, null)`
returns an object holding exactly the fields of `m`, unchanged, followed
by `enriched: false` and `enriched_at: null`. -/
theorem C10_extract_not_found_preserves_member (m : TeamMember) :
    EnrichInvestors.extractEnrichedDataNotFound m.toObj =
      m.toObj ++ [("enriched", JVal.bool false), ("enriched_at", JVal.null)] := by
  rfl

/-! ## Retry delays (backoff policy)

JavaScript numbers are modelled as exact rationals; every quantity
involved stays far below `2^53`, where double arithmetic is exact,
and the sub-ulp error of the literal `0.2` is orders of magnitude
below every margin used in the statements. -/

namespace EnrichInvestors

/-- `CONFIG.INITIAL_RETRY_DELAY` of `enrich_investors.js`. -/
def INITIAL_RETRY_DELAY : Nat := 5000

/-- `CONFIG.MAX_RETRY_DELAY` of `enrich_investors.js`. -/
def MAX_RETRY_DELAY : Nat := 300000

/-- `CONFIG.PAUSE_DURATION` of `enrich_investors.js`. -/
def PAUSE_DURATION : Nat := 10000

/-- `getRetryDelay` inside `enrichLinkedInProfile`:
`Math.min(CONFIG.INITIAL_RETRY_DELAY * Math.pow(2, Math.min(count, 6)),
CONFIG.MAX_RETRY_DELAY)`. -/
def getRetryDelay (count : Nat) : Nat :=
  min (INITIAL_RETRY_DELAY * 2 ^ (min count 6)) MAX_RETRY_DELAY

end EnrichInvestors

namespace FullScraper

/-- `CONFIG.INITIAL_RETRY_DELAY` of the full scraper. -/
def INITIAL_RETRY_DELAY : ℚ := 30000

/-- `CONFIG.MAX_RETRY_DELAY` of the full scraper. -/
def MAX_RETRY_DELAY : ℚ := 300000

/-- The un-jittered part of the full scraper's `getRetryDelay`:
`Math.min(CONFIG.INITIAL_RETRY_DELAY * Math.pow(2, retryCount),
CONFIG.MAX_RETRY_DELAY)` (note: the exponent is *not* capped). -/
def baseDelay (retryCount : Nat) : ℚ :=
  min (INITIAL_RETRY_DELAY * 2 ^ retryCount) MAX_RETRY_DELAY

/-- JavaScript's `Math.round`: round half toward positive infinity. -/
def jsRound (x : ℚ) : ℤ := ⌊x + 1 / 2⌋

/-- The full scraper's `getRetryDelay(retryCount)`, with the draw of
`Math.random()` made explicit as `u ∈ [0, 1)`:
`Math.round(delay + delay * 0.2 * (Math.random() - 0.5))`. -/
def getRetryDelay (retryCount : Nat) (u : ℚ) : ℤ :=
  jsRound (baseDelay retryCount + baseDelay retryCount * (2 / 10) * (u - 1 / 2))

theorem baseDelay_lower (n : Nat) : 30000 ≤ baseDelay n := by
  unfold baseDelay INITIAL_RETRY_DELAY MAX_RETRY_DELAY
  refine le_min ?_ (by norm_num)
  calc (30000 : ℚ) = 30000 * 1 := by norm_num
  _ ≤ 30000 * 2 ^ n := by
      refine mul_le_mul_of_nonneg_left ?_ (by norm_num)
      calc (1 : ℚ) = 1 ^ n := (one_pow n).symm
      _ ≤ 2 ^ n := pow_le_pow_left₀ (by norm_num) (by norm_num) n

theorem baseDelay_upper (n : Nat) : baseDelay n ≤ 300000 := min_le_right _ _

/-- The jittered delay differs from the base delay by at most a tenth
of it plus the rounding half. -/
theorem getRetryDelay_jitter_bound (n : Nat) (u : ℚ) (h0 : 0 ≤ u) (h1 : u < 1) :
    |(getRetryDelay n u : ℚ) - baseDelay n| ≤ baseDelay n / 10 + 1 / 2 := by
  set d := baseDelay n with hd
  have hdlb : (30000 : ℚ) ≤ d := baseDelay_lower n
  have hd0 : (0 : ℚ) ≤ d := by linarith
  set x := d + d * (2 / 10) * (u - 1 / 2) with hx
  have hjub : d * (2 / 10) * (u - 1 / 2) ≤ d / 10 := by nlinarith
  have hjlb : -(d / 10) ≤ d * (2 / 10) * (u - 1 / 2) := by nlinarith
  have hfl : (getRetryDelay n u : ℚ) ≤ x + 1 / 2 := Int.floor_le _
  have hfg : x + 1 / 2 - 1 < (getRetryDelay n u : ℚ) := Int.sub_one_lt_floor _
  rw [abs_le]
  constructor <;> linarith

end FullScraper

/-- The backoff formula as the specification words it:
`min(base_delay * 2^min(attempt, cap_exponent), max_delay)` with
`cap_exponent = 6`. -/
def specBackoffDelay (base_delay max_delay : ℚ) (attempt : Nat) : ℚ :=
  min (base_delay * 2 ^ (min attempt 6)) max_delay

/-- C3: the enrichment script's delay is exactly the spec formula with
base 5000 and max 300000; the full scraper's un-jittered delay equals
the spec formula with base 30000 and max 300000 (its uncapped exponent
makes no difference once the cap 300000 applies); but the jitter the
full scraper adds spans only ±10% of the delay, strictly inside the
±20% its own comment and the specification document: the documented
amplitude is never attained. -/
theorem C3_backoff_formula_jitter_halved :
    (∀ n : Nat, (EnrichInvestors.getRetryDelay n : ℚ) = specBackoffDelay 5000 300000 n)
    ∧ (∀ n : Nat, FullScraper.baseDelay n = specBackoffDelay 30000 300000 n)
    ∧ (∀ (n : Nat) (u : ℚ), 0 ≤ u → u < 1 →
        |(FullScraper.getRetryDelay n u : ℚ) - FullScraper.baseDelay n|
            ≤ FullScraper.baseDelay n / 10 + 1 / 2
        ∧ FullScraper.baseDelay n / 10 + 1 / 2
            < FullScraper.baseDelay n * (2 / 10)) := by
  refine ⟨?_, ?_, ?_⟩
  · intro n
    unfold EnrichInvestors.getRetryDelay EnrichInvestors.INITIAL_RETRY_DELAY
      EnrichInvestors.MAX_RETRY_DELAY specBackoffDelay
    push_cast [Nat.cast_min]
    norm_num
  · intro n
    unfold FullScraper.baseDelay FullScraper.INITIAL_RETRY_DELAY
      FullScraper.MAX_RETRY_DELAY specBackoffDelay
    rcases le_total n 6 with h | h
    · rw [min_eq_left h]
    · rw [min_eq_right h]
      rw [min_eq_right, min_eq_right]
      · norm_num
      · calc (300000 : ℚ) ≤ 30000 * 2 ^ 6 := by norm_num
        _ ≤ 30000 * 2 ^ n := by
            refine mul_le_mul_of_nonneg_left ?_ (by norm_num)
            exact pow_le_pow_right₀ (by norm_num : (1 : ℚ) ≤ 2) h
  · intro n u h0 h1
    refine ⟨FullScraper.getRetryDelay_jitter_bound n u h0 h1, ?_⟩
    have := FullScraper.baseDelay_lower n
    linarith

/-- Witness for `C3_backoff_formula_jitter_halved` at `n = 0`,
`u = 1/2`. -/
theorem C3_backoff_formula_jitter_halved_witness :
    (0 : ℚ) ≤ 1 / 2 ∧ (1 / 2 : ℚ) < 1 ∧
      (|(FullScraper.getRetryDelay 0 (1 / 2) : ℚ) - FullScraper.baseDelay 0|
          ≤ FullScraper.baseDelay 0 / 10 + 1 / 2
      ∧ FullScraper.baseDelay 0 / 10 + 1 / 2 < FullScraper.baseDelay 0 * (2 / 10)) :=
  ⟨by norm_num, by norm_num,
    C3_backoff_formula_jitter_halved.2.2 0 (1 / 2) (by norm_num) (by norm_num)⟩

/-- C4 fails as stated: with the full scraper's jitter included, the
delay of attempt 4 (random draw 0.9) is 324000 ms, which exceeds
`max_delay = 300000`, while the next attempt 5 (random draw 0) computes
270000 ms — a decrease between consecutive attempts. -/
theorem C4_counterexample :
    FullScraper.getRetryDelay 5 0 < FullScraper.getRetryDelay 4 (9 / 10)
    ∧ 300000 < FullScraper.getRetryDelay 4 (9 / 10) := by
  norm_num [FullScraper.getRetryDelay, FullScraper.jsRound, FullScraper.baseDelay,
    FullScraper.INITIAL_RETRY_DELAY, FullScraper.MAX_RETRY_DELAY]

/-- C4 amended: the un-jittered delays of both scripts are
non-decreasing in the attempt count and bounded by
`max_delay = 300000`; the full scraper's jittered delay is within ±10%
of the un-jittered one, hence bounded by 330000, and its doubled
HTTP-429 delay by 660000. -/
theorem C4_backoff_monotone_bounded_amended :
    (∀ n : Nat, EnrichInvestors.getRetryDelay n ≤ EnrichInvestors.getRetryDelay (n + 1)
        ∧ EnrichInvestors.getRetryDelay n ≤ 300000)
    ∧ (∀ n : Nat, FullScraper.baseDelay n ≤ FullScraper.baseDelay (n + 1)
        ∧ FullScraper.baseDelay n ≤ 300000)
    ∧ (∀ (n : Nat) (u : ℚ), 0 ≤ u → u < 1 →
        FullScraper.getRetryDelay n u ≤ 330000
        ∧ 2 * FullScraper.getRetryDelay n u ≤ 660000) := by
  refine ⟨?_, ?_, ?_⟩
  · intro n
    constructor
    · refine min_le_min ?_ le_rfl
      exact Nat.mul_le_mul_left _
        (Nat.pow_le_pow_right (by norm_num) (min_le_min (Nat.le_succ n) le_rfl))
    · exact min_le_right _ _
  · intro n
    constructor
    · refine min_le_min ?_ le_rfl
      refine mul_le_mul_of_nonneg_left ?_ (by norm_num [FullScraper.INITIAL_RETRY_DELAY])
      exact pow_le_pow_right₀ (by norm_num : (1 : ℚ) ≤ 2) (Nat.le_succ n)
    · exact FullScraper.baseDelay_upper n
  · intro n u h0 h1
    have hb := FullScraper.getRetryDelay_jitter_bound n u h0 h1
    have hub := FullScraper.baseDelay_upper n
    have hlb := FullScraper.baseDelay_lower n
    rw [abs_le] at hb
    have hq : (FullScraper.getRetryDelay n u : ℚ) < 330001 := by linarith [hb.2]
    have hz : FullScraper.getRetryDelay n u < 330001 := by exact_mod_cast hq
    omega

/-- Witness for `C4_backoff_monotone_bounded_amended` at `n = 0`,
`u = 1/2`. -/
theorem C4_backoff_monotone_bounded_amended_witness :
    (0 : ℚ) ≤ 1 / 2 ∧ (1 / 2 : ℚ) < 1 ∧
      (FullScraper.getRetryDelay 0 (1 / 2) ≤ 330000
      ∧ 2 * FullScraper.getRetryDelay 0 (1 / 2) ≤ 660000) :=
  ⟨by norm_num, by norm_num,
    C4_backoff_monotone_bounded_amended.2.2 0 (1 / 2) (by norm_num) (by norm_num)⟩

/-! ## Outcome classification (Fetcher + Retry Policy) -/

namespace EnrichInvestors

/-- A classified HTTP response for one attempt of
`enrichLinkedInProfile`: a 200 whose body parses (carrying
`json.profile` when `json.status_code === 200 && json.profile`, else a
"no data" `none`), a 200 whose body fails to parse, any other status
code, a transport error, or a timeout. -/
inductive Response (P : Type) : Type
  | ok (profile : Option P)
  | parseError
  | status (code : Nat)
  | networkError
  | timeout
  deriving DecidableEq

/-- What one attempt decides: resolve with a terminal result, or sleep
and resubmit. -/
inductive FetchStep (P : Type) : Type
  | done (result : Option P)
  | retryAfter (delayMs : Nat)
  deriving DecidableEq

/-- The response classification of `enrichLinkedInProfile`, mirroring
its branch order: 200, 429, 403, ≥ 500, 404/400, other. -/
def classifyResponse {P : Type} (retryCount : Nat) : Response P → FetchStep P
  | .ok r => .done r
  | .parseError => .retryAfter (getRetryDelay retryCount)
  | .status c =>
      if c = 429 then .retryAfter (getRetryDelay retryCount)
      else if c = 403 then .retryAfter (max (getRetryDelay retryCount) 60000)
      else if 500 ≤ c then .retryAfter (getRetryDelay retryCount)
      else if c = 404 ∨ c = 400 then .done none
      else .retryAfter (getRetryDelay retryCount)
  | .networkError => .retryAfter (getRetryDelay retryCount)
  | .timeout => .retryAfter (getRetryDelay retryCount)

/-- Running `enrichLinkedInProfile` against a stream of classified
responses, starting at a given `retryCount`.  Returns the terminal
result together with the number of attempts made and the backoff
delays slept, or `none` when the stream is exhausted while the call is
still retrying. -/
def fetchRun {P : Type} : List (Response P) → Nat → Option (Option P × Nat × List Nat)
  | [], _ => none
  | r :: rest, retryCount =>
      match classifyResponse retryCount r with
      | .done v => some (v, 1, [])
      | .retryAfter d =>
          match fetchRun rest (retryCount + 1) with
          | some (v, attempts, delays) => some (v, attempts + 1, d :: delays)
          | none => none

end EnrichInvestors

namespace VisibleScraper

/-- A classified HTTP response for one attempt of either scraper's
`makeRequest`: a 200 whose body parses, a 200 whose body fails to
parse, any other status code, a transport error, or a timeout. -/
inductive Response (J : Type) : Type
  | ok (body : J)
  | parseError
  | status (code : Nat)
  | networkError
  | timeout
  deriving DecidableEq

end VisibleScraper

namespace BasicScraper

/-- `CONFIG.MAX_RETRIES` of the basic scraper. -/
def MAX_RETRIES : Nat := 3

/-- `CONFIG.RETRY_DELAY` of the basic scraper. -/
def RETRY_DELAY : Nat := 5000

/-- What one attempt of the basic scraper's `makeRequest` decides. -/
inductive Outcome (J : Type) : Type
  | resolve (body : J)
  | reject (message : String)
  | retryAfter (delayMs : Nat)
  deriving DecidableEq

/-- One attempt of the basic scraper's `makeRequest` (the first script
in `visible_investor_scraper.js`): parse failures, non-429 statuses
and timeouts reject; 429 and transport errors retry only while
`retryCount < CONFIG.MAX_RETRIES`, at the fixed `CONFIG.RETRY_DELAY`. -/
def makeRequestStep {J : Type} (retryCount : Nat) : VisibleScraper.Response J → Outcome J
  | .ok body => .resolve body
  | .parseError => .reject "Failed to parse JSON"
  | .status c =>
      if c = 429 then
        if retryCount < MAX_RETRIES then .retryAfter RETRY_DELAY
        else .reject "Rate limit exceeded after max retries"
      else .reject ("HTTP " ++ toString c)
  | .networkError =>
      if retryCount < MAX_RETRIES then .retryAfter RETRY_DELAY
      else .reject "request error"
  | .timeout => .reject "Request timeout"

end BasicScraper

namespace FullScraper

/-- What one attempt of the full scraper's `makeRequest` decides:
resolve with the parsed body, resolve with `null` (the 4xx "skip"
branch), or sleep and resubmit. -/
inductive RequestStep (J : Type) : Type
  | done (result : Option J)
  | retryAfter (delayMs : ℤ)
  deriving DecidableEq

/-- One attempt of the full scraper's `makeRequest`, mirroring its
branch order: 200 (parse ok / parse error), 429 (doubled jittered
delay), ≥ 500, ≥ 400 (resolve `null`, skip), other status, transport
error, timeout.  `u ∈ [0, 1)` is the draw of `Math.random()`. -/
def makeRequestStep {J : Type} (retryCount : Nat) (u : ℚ) :
    VisibleScraper.Response J → RequestStep J
  | .ok body => .done (some body)
  | .parseError => .retryAfter (getRetryDelay retryCount u)
  | .status c =>
      if c = 429 then .retryAfter (2 * getRetryDelay retryCount u)
      else if 500 ≤ c then .retryAfter (getRetryDelay retryCount u)
      else if 400 ≤ c then .done none
      else .retryAfter (getRetryDelay retryCount u)
  | .networkError => .retryAfter (getRetryDelay retryCount u)
  | .timeout => .retryAfter (getRetryDelay retryCount u)

end FullScraper

/-! ## The enrichment orchestration loop (`enrich` in `enrich_investors.js`)

The loop is modelled as a fold over per-iteration events.  An event is
the outcome of the `try` body at the fetch boundary: either the awaited
`enrichLinkedInProfile` call resolved (with a profile or `null`), or an
exception escaped into the defensive `catch`.  The loop is parametric
in the profile payload `P` and the enriched-entry payload `E` together
with the `extractEnrichedData` function producing entries: the loop
never inspects either beyond the truthiness of the resolved profile. -/

namespace EnrichInvestors

/-- The in-memory `progress` object of `enrich_investors.js`. -/
structure Progress (E : Type) : Type where
  processedIds : List String
  enrichedMembers : List E
  statsTotal : Nat
  statsEnriched : Nat
  statsNotFound : Nat
  statsNoLinkedIn : Nat
  deriving DecidableEq

/-- Observable actions of the orchestration loop: a `saveProgress`
call (with the snapshot written), the batch pause, a sleep, and an
`enrichLinkedInProfile` call (with the member id fetched and the
`processedIds` list at the moment of the call). -/
inductive TraceEv (E : Type) : Type
  | save (snapshot : Progress E)
  | pause
  | wait (ms : Nat)
  | fetch (memberId : String) (processedIdsAtCall : List String)
  deriving DecidableEq

/-- The mutable state of the `while (i < toProcess.length)` loop. -/
structure LoopState (E : Type) : Type where
  i : Nat
  consecutiveInBatch : Nat
  progress : Progress E
  trace : List (TraceEv E)
  deriving DecidableEq

/-- The outcome of one iteration's `try` body at the fetch boundary. -/
inductive IterEvent (P : Type) : Type
  | ok (profile : Option P)
  | err
  deriving DecidableEq

/-- The periodic-pause check at the top of each iteration:
`if (consecutiveInBatch > 0 && consecutiveInBatch % CONFIG.PAUSE_EVERY
=== 0) { saveProgress(progress); await sleep(CONFIG.PAUSE_DURATION); }`. -/
def pauseBlock {E : Type} (pauseEvery : Nat) (s : LoopState E) : List (TraceEv E) :=
  if 0 < s.consecutiveInBatch ∧ s.consecutiveInBatch % pauseEvery = 0 then
    [.save s.progress, .pause]
  else []

/-- Recording a terminal fetch result: push the extracted entry, push
the member id, and update the counters, as lines 612–625 do. -/
def recordResult {E P : Type} (extract : TeamMember → Option P → E)
    (member : TeamMember) (r : Option P) (p : Progress E) : Progress E :=
  { p with
    processedIds := p.processedIds ++ [member.id]
    enrichedMembers := p.enrichedMembers ++ [extract member r]
    statsTotal := p.statsTotal + 1
    statsEnriched := p.statsEnriched + (match r with | some _ => 1 | none => 0)
    statsNotFound := p.statsNotFound + (match r with | some _ => 0 | none => 1) }

/-- One iteration of the loop body.  On `ok` the result is recorded,
the periodic save fires when `(i + 1) % 10 === 0`, and `i` advances.
On an exception the `catch` saves the checkpoint, sleeps one
`INITIAL_RETRY_DELAY`, and leaves `i`, `consecutiveInBatch` and
`progress` untouched so the same member is retried. -/
def step {E P : Type} (extract : TeamMember → Option P → E) (delay pauseEvery : Nat)
    (toProcess : List TeamMember) (s : LoopState E) (ev : IterEvent P) : LoopState E :=
  if h : s.i < toProcess.length then
    let member := toProcess.get ⟨s.i, h⟩
    let t := s.trace ++ pauseBlock pauseEvery s
      ++ [.wait delay, .fetch member.id s.progress.processedIds]
    match ev with
    | .ok r =>
        let prog := recordResult extract member r s.progress
        { i := s.i + 1
          consecutiveInBatch := s.consecutiveInBatch + 1
          progress := prog
          trace := if (s.i + 1) % 10 = 0 then t ++ [.save prog] else t }
    | .err =>
        { i := s.i
          consecutiveInBatch := s.consecutiveInBatch
          progress := s.progress
          trace := t ++ [.save s.progress, .wait INITIAL_RETRY_DELAY] }
  else s

/-- Folding the loop over a stream of iteration events. -/
def run {E P : Type} (extract : TeamMember → Option P → E) (delay pauseEvery : Nat)
    (toProcess : List TeamMember) (s : LoopState E) : List (IterEvent P) → LoopState E
  | [] => s
  | ev :: evs => run extract delay pauseEvery toProcess
      (step extract delay pauseEvery toProcess s ev) evs

/-- A full run of `enrich`: the loop followed by the final
`saveProgress(progress)` once the loop has exited (the loop exits only
when `i` has reached the end of `toProcess`; with fewer events the run
is still in flight and no final save has happened yet). -/
def runEnrich {E P : Type} (extract : TeamMember → Option P → E) (delay pauseEvery : Nat)
    (toProcess : List TeamMember) (s : LoopState E) (events : List (IterEvent P)) :
    LoopState E :=
  let s' := run extract delay pauseEvery toProcess s events
  if s'.i < toProcess.length then s'
  else { s' with trace := s'.trace ++ [.save s'.progress] }

/-- The state at the top of `enrich`'s loop. -/
def initState {E : Type} (prog : Progress E) : LoopState E :=
  { i := 0, consecutiveInBatch := 0, progress := prog, trace := [] }

/-- The work-set computation (lines 561–564):
`membersWithLinkedIn.filter(m => !processedSet.has(m.id)).slice(0,
options.limit)`. -/
def computeToProcess (membersWithLinkedIn : List TeamMember)
    (processedIds : List String) (limit : Nat) : List TeamMember :=
  ((membersWithLinkedIn.filter (fun m => !(processedIds.contains m.id))).take limit)

end EnrichInvestors

/-! ## The full scraper's per-item processing (`scrape`, Phase 2) -/

namespace FullScraper

/-- `CONFIG.SAVE_EVERY` of the full scraper. -/
def SAVE_EVERY : Nat := 10

/-- `CONFIG.MIN_DELAY_BETWEEN_CALLS` of the full scraper. -/
def MIN_DELAY_BETWEEN_CALLS : Nat := 1500

/-- An element of `allSlugs`: `{ id, slug }`. -/
structure SlugEntry : Type where
  id : String
  slug : String
  deriving DecidableEq

/-- The full scraper's in-memory `progress` object (the parts Phase 2
touches). -/
structure SProgress (I T R : Type) : Type where
  processedSlugs : List String
  investors : List I
  teamMembers : List T
  investments : List R
  deriving DecidableEq

/-- Observable actions of one Phase-2 iteration. -/
inductive STraceEv (I T R : Type) : Type
  | save (snapshot : SProgress I T R)
  | wait (ms : Nat)
  | fetchInvestor (slug : String)
  | fetchTeam (slug : String)
  | fetchInvestments (slug : String)
  deriving DecidableEq

/-- The outcome of one iteration's `try` body: the three awaited
fetches resolved (`data = none` when `fetchInvestorBySlug` resolved
`null` and team/investment fetches were skipped), or an exception
escaped into the per-item `catch` at the first fetch. -/
inductive SIterEvent (I T R : Type) : Type
  | ok (data : Option (I × List T × List R))
  | err
  deriving DecidableEq

/-- One Phase-2 iteration body (lines 1334–1380) for a slug not yet in
`processedSet`: on success the extracted records are appended and the
slug is pushed to `processedSlugs`; on an exception the `catch` *also*
pushes the slug and advances; either way the periodic save fires when
`processed % CONFIG.SAVE_EVERY === 0`.  Returns the new progress, the
new `processed` count, the new `consecutiveInThisBatch` count, and the
iteration's trace. -/
def processSlug {I T R : Type} (delay saveEvery : Nat) (entry : SlugEntry)
    (prog : SProgress I T R) (processed consecutiveInThisBatch : Nat)
    (ev : SIterEvent I T R) :
    SProgress I T R × Nat × Nat × List (STraceEv I T R) :=
  match ev with
  | .ok dat =>
      let fetched : SProgress I T R × List (STraceEv I T R) :=
        match dat with
        | some (inv, tms, rnds) =>
            ({ prog with
                investors := prog.investors ++ [inv]
                teamMembers := prog.teamMembers ++ tms
                investments := prog.investments ++ rnds
                processedSlugs := prog.processedSlugs ++ [entry.slug] },
             [.wait delay, .fetchInvestor entry.slug,
              .wait MIN_DELAY_BETWEEN_CALLS, .fetchTeam entry.slug,
              .wait MIN_DELAY_BETWEEN_CALLS, .fetchInvestments entry.slug])
        | none =>
            ({ prog with processedSlugs := prog.processedSlugs ++ [entry.slug] },
             [.wait delay, .fetchInvestor entry.slug])
      (fetched.1, processed + 1, consecutiveInThisBatch + 1,
        fetched.2 ++ (if (processed + 1) % saveEvery = 0 then [.save fetched.1] else []))
  | .err =>
      let prog1 : SProgress I T R :=
        { prog with processedSlugs := prog.processedSlugs ++ [entry.slug] }
      (prog1, processed + 1, consecutiveInThisBatch + 1,
        [.wait delay, .fetchInvestor entry.slug]
          ++ (if (processed + 1) % saveEvery = 0 then [.save prog1] else []))

end FullScraper

/-- The initial `progress` object of `enrich` (fresh run). -/
def emptyProgress (E : Type) : EnrichInvestors.Progress E :=
  { processedIds := []
    enrichedMembers := []
    statsTotal := 0
    statsEnriched := 0
    statsNotFound := 0
    statsNoLinkedIn := 0 }

/-- Sample team-member records used by the concrete witnesses below. -/
def mA : TeamMember := ⟨"tm-1", "inv-1", "fund-a", "Ada", "Partner", "li-1", "", "", "t0"⟩

def mB : TeamMember := ⟨"tm-2", "inv-1", "fund-a", "Ben", "Analyst", "li-2", "", "", "t0"⟩

def mC : TeamMember := ⟨"tm-3", "inv-2", "fund-b", "Cam", "GP", "li-3", "", "", "t0"⟩

def mD : TeamMember := ⟨"tm-4", "inv-2", "fund-b", "Dee", "LP", "li-4", "", "", "t0"⟩

def mE : TeamMember := ⟨"tm-5", "inv-3", "fund-c", "Eve", "Partner", "li-5", "", "", "t0"⟩

/-- C5: an HTTP 404 or 400 is terminal.  `enrichLinkedInProfile`
resolves `null` on the first attempt with no retry and no backoff
sleep; the full scraper's `makeRequest` likewise resolves `null`; and
the orchestrators record the null result ("not found") and move to the
next item. -/
theorem C5_permanent_404_400 :
    (∀ (P : Type) (retryCount : Nat) (rest : List (EnrichInvestors.Response P)),
      EnrichInvestors.fetchRun (EnrichInvestors.Response.status 404 :: rest) retryCount
          = some (none, 1, [])
      ∧ EnrichInvestors.fetchRun (EnrichInvestors.Response.status 400 :: rest) retryCount
          = some (none, 1, []))
    ∧ (∀ (J : Type) (retryCount : Nat) (u : ℚ),
      FullScraper.makeRequestStep retryCount u (VisibleScraper.Response.status (J := J) 404)
          = FullScraper.RequestStep.done none
      ∧ FullScraper.makeRequestStep retryCount u (VisibleScraper.Response.status (J := J) 400)
          = FullScraper.RequestStep.done none)
    ∧ (∀ (E P : Type) (extract : TeamMember → Option P → E) (delay pauseEvery : Nat)
        (toProcess : List TeamMember) (s : EnrichInvestors.LoopState E)
        (h : s.i < toProcess.length),
      (EnrichInvestors.step extract delay pauseEvery toProcess s
          (EnrichInvestors.IterEvent.ok none)).i = s.i + 1
      ∧ (EnrichInvestors.step extract delay pauseEvery toProcess s
          (EnrichInvestors.IterEvent.ok none)).progress.statsNotFound
          = s.progress.statsNotFound + 1
      ∧ (EnrichInvestors.step extract delay pauseEvery toProcess s
          (EnrichInvestors.IterEvent.ok none)).progress.processedIds
          = s.progress.processedIds ++ [(toProcess.get ⟨s.i, h⟩).id])
    ∧ (∀ (I T R : Type) (delay saveEvery : Nat) (entry : FullScraper.SlugEntry)
        (prog : FullScraper.SProgress I T R) (processed cib : Nat),
      (FullScraper.processSlug delay saveEvery entry prog processed cib
          (FullScraper.SIterEvent.ok none)).1.processedSlugs
          = prog.processedSlugs ++ [entry.slug]
      ∧ (FullScraper.processSlug delay saveEvery entry prog processed cib
          (FullScraper.SIterEvent.ok none)).2.1 = processed + 1) := by
  refine ⟨fun P n rest => ⟨rfl, rfl⟩, fun J n u => ⟨rfl, rfl⟩, ?_, ?_⟩
  · intro E P extract delay pauseEvery toProcess s h
    unfold EnrichInvestors.step
    rw [dif_pos h]
    exact ⟨rfl, rfl, rfl⟩
  · intro I T R delay saveEvery entry prog processed cib
    exact ⟨rfl, rfl⟩

/-- Witness for `C5_permanent_404_400` at a one-member work set. -/
theorem C5_permanent_404_400_witness :
    (EnrichInvestors.initState (emptyProgress String)).i < [mA].length
    ∧ ((EnrichInvestors.step (fun m (_ : Option Unit) => m.id) 1000 50 [mA]
          (EnrichInvestors.initState (emptyProgress String))
          (EnrichInvestors.IterEvent.ok none)).i
        = (EnrichInvestors.initState (emptyProgress String)).i + 1
      ∧ (EnrichInvestors.step (fun m (_ : Option Unit) => m.id) 1000 50 [mA]
          (EnrichInvestors.initState (emptyProgress String))
          (EnrichInvestors.IterEvent.ok none)).progress.statsNotFound
        = (EnrichInvestors.initState (emptyProgress String)).progress.statsNotFound + 1
      ∧ (EnrichInvestors.step (fun m (_ : Option Unit) => m.id) 1000 50 [mA]
          (EnrichInvestors.initState (emptyProgress String))
          (EnrichInvestors.IterEvent.ok none)).progress.processedIds
        = (EnrichInvestors.initState (emptyProgress String)).progress.processedIds
            ++ [([mA].get ⟨(EnrichInvestors.initState (emptyProgress String)).i,
                  by decide⟩).id]) :=
  ⟨by decide,
    C5_permanent_404_400.2.2.1 String Unit (fun m _ => m.id) 1000 50 [mA]
      (EnrichInvestors.initState (emptyProgress String)) (by decide)⟩

/-- C6 fails as stated: the basic scraper's `makeRequest` (cited at
lines 160–169) abandons a 429 response once `retryCount` has reached
`CONFIG.MAX_RETRIES = 3`, rejecting with "Rate limit exceeded after
max retries". -/
theorem C6_counterexample :
    BasicScraper.makeRequestStep 3 (VisibleScraper.Response.status (J := Unit) 429)
      = BasicScraper.Outcome.reject "Rate limit exceeded after max retries" := rfl

/-- C6 amended: a 429 is always retried with backoff, at every attempt
count, in the enrichment script and in the full scraper (which doubles
the jittered delay); the basic scraper, however, retries a 429 at a
fixed 5000 ms delay only while `retryCount < MAX_RETRIES = 3` and
rejects the request once the ceiling is reached. -/
theorem C6_429_retry_amended :
    (∀ (P : Type) (retryCount : Nat),
      EnrichInvestors.classifyResponse retryCount (EnrichInvestors.Response.status (P := P) 429)
        = EnrichInvestors.FetchStep.retryAfter (EnrichInvestors.getRetryDelay retryCount))
    ∧ (∀ (J : Type) (retryCount : Nat) (u : ℚ),
      FullScraper.makeRequestStep retryCount u (VisibleScraper.Response.status (J := J) 429)
        = FullScraper.RequestStep.retryAfter (2 * FullScraper.getRetryDelay retryCount u))
    ∧ (∀ (J : Type) (retryCount : Nat), retryCount < BasicScraper.MAX_RETRIES →
      BasicScraper.makeRequestStep retryCount (VisibleScraper.Response.status (J := J) 429)
        = BasicScraper.Outcome.retryAfter BasicScraper.RETRY_DELAY)
    ∧ (∀ (J : Type),
      BasicScraper.makeRequestStep BasicScraper.MAX_RETRIES
          (VisibleScraper.Response.status (J := J) 429)
        = BasicScraper.Outcome.reject "Rate limit exceeded after max retries") := by
  refine ⟨fun P n => rfl, fun J n u => rfl, ?_, fun J => rfl⟩
  intro J retryCount h
  have h' : retryCount < 3 := h
  simp [BasicScraper.makeRequestStep, BasicScraper.MAX_RETRIES, h']

/-- Witness for `C6_429_retry_amended` at `retryCount = 0`. -/
theorem C6_429_retry_amended_witness :
    0 < BasicScraper.MAX_RETRIES
    ∧ BasicScraper.makeRequestStep 0 (VisibleScraper.Response.status (J := Unit) 429)
        = BasicScraper.Outcome.retryAfter BasicScraper.RETRY_DELAY :=
  ⟨by decide, C6_429_retry_amended.2.2.1 Unit 0 (by decide)⟩

/-- C7 fails as stated: in the full scraper a 403 response falls into
the generic `>= 400` client-error branch and resolves `null` — the
item is skipped, not retried with a 60 s floor. -/
theorem C7_counterexample :
    FullScraper.makeRequestStep 0 (1 / 2) (VisibleScraper.Response.status (J := Unit) 403)
      = FullScraper.RequestStep.done none := rfl

/-- C7 amended: only the enrichment script treats a 403 as retryable
with the wait floored at 60 s (`Math.max(getRetryDelay(retryCount),
60000)`); the full scraper resolves a 403 to `null` and skips the
item, and the basic scraper rejects it. -/
theorem C7_403_floor_amended :
    (∀ (P : Type) (retryCount : Nat),
      EnrichInvestors.classifyResponse retryCount (EnrichInvestors.Response.status (P := P) 403)
        = EnrichInvestors.FetchStep.retryAfter
            (max (EnrichInvestors.getRetryDelay retryCount) 60000)
      ∧ 60000 ≤ max (EnrichInvestors.getRetryDelay retryCount) 60000)
    ∧ (∀ (J : Type) (retryCount : Nat) (u : ℚ),
      FullScraper.makeRequestStep retryCount u (VisibleScraper.Response.status (J := J) 403)
        = FullScraper.RequestStep.done none)
    ∧ (∀ (J : Type) (retryCount : Nat),
      BasicScraper.makeRequestStep retryCount (VisibleScraper.Response.status (J := J) 403)
        = BasicScraper.Outcome.reject ("HTTP " ++ toString 403)) := by
  exact ⟨fun P n => ⟨rfl, le_max_right _ _⟩, fun J n u => rfl, fun J n => rfl⟩

/-! ## Loop invariants: no double-fetch (C1) and checkpoint consistency (C2) -/

namespace EnrichInvestors

theorem get_not_mem_take {α : Type} {l : List α} (hn : l.Nodup) {i : Nat}
    (h : i < l.length) : l.get ⟨i, h⟩ ∉ l.take i := by
  intro hmem
  obtain ⟨⟨j, hj⟩, hget⟩ := List.mem_iff_get.mp hmem
  have hjlen : j < l.length := lt_of_lt_of_le hj (by simp [List.length_take_le])
  have hj' : j < i := by
    have := hj
    simp [List.length_take] at this
    omega
  have heq : l.get ⟨j, hjlen⟩ = l.get ⟨i, h⟩ := by
    rw [← hget]
    simp [List.getElem_take]
  have := hn.get_inj_iff.mp heq
  simp [Fin.ext_iff] at this
  omega

/-- Every `enrichLinkedInProfile` call recorded in the trace was made
while the fetched member's id was absent from `processedIds`. -/
def FetchOk {E : Type} (t : List (TraceEv E)) : Prop :=
  ∀ (memberId : String) (pids : List String),
    TraceEv.fetch memberId pids ∈ t → memberId ∉ pids

theorem fetchOk_append {E : Type} {t u : List (TraceEv E)}
    (ht : FetchOk t) (hu : FetchOk u) : FetchOk (t ++ u) := by
  intro a b hm
  rcases List.mem_append.mp hm with hm | hm
  · exact ht a b hm
  · exact hu a b hm

theorem fetchOk_pauseBlock {E : Type} (pauseEvery : Nat) (s : LoopState E) :
    FetchOk (pauseBlock pauseEvery s) := by
  unfold pauseBlock
  split
  · intro a b hm
    simp at hm
  · intro a b hm
    simp at hm

/-- The fresh-id fact: the member about to be fetched at index `i` has
an id outside `initIds ++ (toProcess.take i).map id`. -/
theorem fresh_id {initIds : List String} {toProcess : List TeamMember}
    (hdisj : ∀ m ∈ toProcess, m.id ∉ initIds)
    (hnd : (toProcess.map TeamMember.id).Nodup)
    {i : Nat} (h : i < toProcess.length) :
    (toProcess.get ⟨i, h⟩).id ∉ initIds ++ (toProcess.take i).map TeamMember.id := by
  intro hmem
  rcases List.mem_append.mp hmem with hm | hm
  · exact hdisj _ (List.get_mem toProcess i h) hm
  · rw [List.map_take] at hm
    have hglt : i < (toProcess.map TeamMember.id).length := by simpa using h
    have hg : (toProcess.map TeamMember.id).get ⟨i, hglt⟩ = (toProcess.get ⟨i, h⟩).id := by
      simp [List.get_eq_getElem, List.getElem_map]
    exact get_not_mem_take hnd hglt (hg ▸ hm)

/-- The per-state invariant of the no-double-fetch argument. -/
def IdsInv {E : Type} (initIds : List String) (toProcess : List TeamMember)
    (s : LoopState E) : Prop :=
  s.i ≤ toProcess.length
  ∧ s.progress.processedIds = initIds ++ (toProcess.take s.i).map TeamMember.id
  ∧ FetchOk s.trace

theorem step_idsInv {E P : Type} (extract : TeamMember → Option P → E)
    (delay pauseEvery : Nat) {initIds : List String} {toProcess : List TeamMember}
    (hdisj : ∀ m ∈ toProcess, m.id ∉ initIds)
    (hnd : (toProcess.map TeamMember.id).Nodup)
    (s : LoopState E) (ev : IterEvent P) (h : IdsInv initIds toProcess s) :
    IdsInv initIds toProcess (step extract delay pauseEvery toProcess s ev) := by
  obtain ⟨hle, hshape, htr⟩ := h
  by_cases hi : s.i < toProcess.length
  · have hfresh : (toProcess.get ⟨s.i, hi⟩).id ∉ s.progress.processedIds := by
      rw [hshape]
      exact fresh_id hdisj hnd hi
    have hfetch : FetchOk
        [TraceEv.wait (E := E) delay,
         TraceEv.fetch (toProcess.get ⟨s.i, hi⟩).id s.progress.processedIds] := by
      intro a b hm
      simp at hm
      obtain ⟨rfl, rfl⟩ := hm
      exact hfresh
    have htr' : FetchOk (s.trace ++ pauseBlock pauseEvery s
        ++ [TraceEv.wait (E := E) delay,
            TraceEv.fetch (toProcess.get ⟨s.i, hi⟩).id s.progress.processedIds]) :=
      fetchOk_append (fetchOk_append htr (fetchOk_pauseBlock pauseEvery s)) hfetch
    have htake : toProcess.take (s.i + 1)
        = toProcess.take s.i ++ [toProcess.get ⟨s.i, hi⟩] := by
      simpa using (List.take_concat_get toProcess s.i hi).symm
    have hshape' : s.progress.processedIds ++ [(toProcess.get ⟨s.i, hi⟩).id]
        = initIds ++ (toProcess.take (s.i + 1)).map TeamMember.id := by
      rw [hshape, htake, List.map_append, List.append_assoc]
      simp
    unfold step
    rw [dif_pos hi]
    cases ev with
    | ok r =>
        refine ⟨hi, ?_, ?_⟩
        · simpa [recordResult] using hshape'
        · dsimp only
          split
          · refine fetchOk_append htr' ?_
            intro a b hm
            simp at hm
          · exact htr'
    | err =>
        refine ⟨hle, hshape, ?_⟩
        refine fetchOk_append htr' ?_
        intro a b hm
        simp at hm
  · unfold step
    rw [dif_neg hi]
    exact ⟨hle, hshape, htr⟩

theorem run_idsInv {E P : Type} (extract : TeamMember → Option P → E)
    (delay pauseEvery : Nat) {initIds : List String} {toProcess : List TeamMember}
    (hdisj : ∀ m ∈ toProcess, m.id ∉ initIds)
    (hnd : (toProcess.map TeamMember.id).Nodup)
    (events : List (IterEvent P)) (s : LoopState E) (h : IdsInv initIds toProcess s) :
    IdsInv initIds toProcess (run extract delay pauseEvery toProcess s events) := by
  induction events generalizing s with
  | nil => exact h
  | cons ev evs ih =>
      exact ih _ (step_idsInv extract delay pauseEvery hdisj hnd s ev h)

theorem computeToProcess_not_processed (members : List TeamMember)
    (processedIds : List String) (limit : Nat) :
    ∀ m ∈ computeToProcess members processedIds limit, m.id ∉ processedIds := by
  intro m hm
  have hm' := List.mem_of_mem_take hm
  have := (List.mem_filter.mp hm').2
  simpa using this

theorem computeToProcess_nodup (members : List TeamMember)
    (processedIds : List String) (limit : Nat)
    (hnd : (members.map TeamMember.id).Nodup) :
    ((computeToProcess members processedIds limit).map TeamMember.id).Nodup := by
  refine hnd.sublist (List.Sublist.map _ ?_)
  exact (List.take_sublist _ _).trans (List.filter_sublist members)

end EnrichInvestors

/-- C1: the work set is computed as the eligible members minus the ids
already in `processedIds`, and during the run every
`enrichLinkedInProfile` call happens while the fetched member's id is
absent from `processedIds` — once an id is in `processedIds` the
Fetcher is never invoked for it again (the trace records the
`processedIds` list at each call). -/
theorem C1_never_refetch_processed (E P : Type) (extract : TeamMember → Option P → E)
    (delay pauseEvery limit : Nat) (members : List TeamMember)
    (initProg : EnrichInvestors.Progress E)
    (hnd : (members.map TeamMember.id).Nodup)
    (events : List (EnrichInvestors.IterEvent P)) :
    (∀ m ∈ EnrichInvestors.computeToProcess members initProg.processedIds limit,
        m.id ∉ initProg.processedIds)
    ∧ (∀ (memberId : String) (pids : List String),
        EnrichInvestors.TraceEv.fetch memberId pids ∈
          (EnrichInvestors.runEnrich extract delay pauseEvery
            (EnrichInvestors.computeToProcess members initProg.processedIds limit)
            (EnrichInvestors.initState initProg) events).trace
        → memberId ∉ pids) := by
  refine ⟨EnrichInvestors.computeToProcess_not_processed members initProg.processedIds limit, ?_⟩
  have hdisj := EnrichInvestors.computeToProcess_not_processed members initProg.processedIds limit
  have hndT := EnrichInvestors.computeToProcess_nodup members initProg.processedIds limit hnd
  have hinit : EnrichInvestors.IdsInv initProg.processedIds
      (EnrichInvestors.computeToProcess members initProg.processedIds limit)
      (EnrichInvestors.initState initProg) := by
    refine ⟨Nat.zero_le _, ?_, ?_⟩
    · simp [EnrichInvestors.initState]
    · intro a b hm
      simp [EnrichInvestors.initState] at hm
  have hrun := EnrichInvestors.run_idsInv extract delay pauseEvery hdisj hndT events _ hinit
  intro a b hm
  have hF := hrun.2.2
  unfold EnrichInvestors.runEnrich at hm
  by_cases hc : (EnrichInvestors.run extract delay pauseEvery
      (EnrichInvestors.computeToProcess members initProg.processedIds limit)
      (EnrichInvestors.initState initProg) events).i
      < (EnrichInvestors.computeToProcess members initProg.processedIds limit).length
  · rw [if_pos hc] at hm
    exact hF a b hm
  · rw [if_neg hc] at hm
    dsimp only at hm
    rcases List.mem_append.mp hm with hm | hm
    · exact hF a b hm
    · simp at hm

/-- Witness for `C1_never_refetch_processed`: two eligible members,
one already processed, a run with a not-found result, a defensive
retry, and a success. -/
theorem C1_never_refetch_processed_witness :
    (([mA, mB].map TeamMember.id).Nodup)
    ∧ ((∀ m ∈ EnrichInvestors.computeToProcess [mA, mB] ["tm-2"] 5, m.id ∉ ["tm-2"])
      ∧ (∀ (memberId : String) (pids : List String),
          EnrichInvestors.TraceEv.fetch memberId pids ∈
            (EnrichInvestors.runEnrich (fun m (_ : Option Unit) => m.id) 1000 50
              (EnrichInvestors.computeToProcess [mA, mB] ["tm-2"] 5)
              (EnrichInvestors.initState
                { emptyProgress String with processedIds := ["tm-2"] })
              [.ok none, .err, .ok (some ())]).trace
          → memberId ∉ pids)) :=
  ⟨by decide,
    C1_never_refetch_processed String Unit (fun m _ => m.id) 1000 50 5 [mA, mB]
      { emptyProgress String with processedIds := ["tm-2"] } (by decide)
      [.ok none, .err, .ok (some ())]⟩

namespace EnrichInvestors

/-- The results list is aligned with `processedIds`: both are the two
projections of one list of (member, profile-result) pairs, the entries
being produced by `extractEnrichedData`. -/
def Aligned {E P : Type} (extract : TeamMember → Option P → E) (prog : Progress E) : Prop :=
  ∃ pairs : List (TeamMember × Option P),
    prog.processedIds = pairs.map (fun q => q.1.id)
    ∧ prog.enrichedMembers = pairs.map (fun q => extract q.1 q.2)

/-- The checkpoint-consistency property of one saved snapshot: no id
appears twice, `|processed_ids| = |results|`, and the k-th result is
the (possibly "not found") entry extracted for a member carrying the
k-th id. -/
def ConsistentSnapshot {E P : Type} (extract : TeamMember → Option P → E)
    (prog : Progress E) : Prop :=
  prog.processedIds.Nodup
  ∧ prog.processedIds.length = prog.enrichedMembers.length
  ∧ ∀ (k : Nat) (hk : k < prog.processedIds.length)
      (hk' : k < prog.enrichedMembers.length),
      ∃ (m : TeamMember) (r : Option P),
        m.id = prog.processedIds.get ⟨k, hk⟩
        ∧ prog.enrichedMembers.get ⟨k, hk'⟩ = extract m r

theorem aligned_consistent {E P : Type} (extract : TeamMember → Option P → E)
    {prog : Progress E} (hA : Aligned extract prog)
    (hnd : prog.processedIds.Nodup) : ConsistentSnapshot extract prog := by
  obtain ⟨pairs, h1, h2⟩ := hA
  refine ⟨hnd, by rw [h1, h2]; simp, ?_⟩
  intro k hk hk'
  have hkp : k < pairs.length := by
    rw [h1] at hk
    simpa using hk
  refine ⟨(pairs.get ⟨k, hkp⟩).1, (pairs.get ⟨k, hkp⟩).2, ?_, ?_⟩
  · simp only [List.get_eq_getElem, h1, List.getElem_map]
  · simp only [List.get_eq_getElem, h2, List.getElem_map]

/-- Every checkpoint snapshot saved in the trace is consistent. -/
def SavesOk {E P : Type} (extract : TeamMember → Option P → E)
    (t : List (TraceEv E)) : Prop :=
  ∀ snap, TraceEv.save snap ∈ t → ConsistentSnapshot extract snap

theorem savesOk_append {E P : Type} {extract : TeamMember → Option P → E}
    {t u : List (TraceEv E)} (ht : SavesOk extract t) (hu : SavesOk extract u) :
    SavesOk extract (t ++ u) := by
  intro snap hm
  rcases List.mem_append.mp hm with hm | hm
  · exact ht snap hm
  · exact hu snap hm

theorem pids_nodup {initIds : List String} {toProcess : List TeamMember}
    (hndI : initIds.Nodup)
    (hdisj : ∀ m ∈ toProcess, m.id ∉ initIds)
    (hndT : (toProcess.map TeamMember.id).Nodup) (i : Nat) :
    (initIds ++ (toProcess.take i).map TeamMember.id).Nodup := by
  refine List.Nodup.append hndI ?_ ?_
  · rw [List.map_take]
    exact hndT.sublist (List.take_sublist _ _)
  · intro a ha hb
    obtain ⟨m, hm, rfl⟩ := List.mem_map.mp hb
    exact hdisj m (List.mem_of_mem_take hm) ha

/-- The per-state invariant of the checkpoint-consistency argument. -/
def CkptInv {E P : Type} (extract : TeamMember → Option P → E)
    (initProg : Progress E) (toProcess : List TeamMember) (s : LoopState E) : Prop :=
  s.i ≤ toProcess.length
  ∧ s.progress.processedIds
      = initProg.processedIds ++ (toProcess.take s.i).map TeamMember.id
  ∧ Aligned extract s.progress
  ∧ SavesOk extract s.trace

theorem step_ckptInv {E P : Type} (extract : TeamMember → Option P → E)
    (delay pauseEvery : Nat) {initProg : Progress E} {toProcess : List TeamMember}
    (hndI : initProg.processedIds.Nodup)
    (hdisj : ∀ m ∈ toProcess, m.id ∉ initProg.processedIds)
    (hndT : (toProcess.map TeamMember.id).Nodup)
    (s : LoopState E) (ev : IterEvent P)
    (h : CkptInv extract initProg toProcess s) :
    CkptInv extract initProg toProcess (step extract delay pauseEvery toProcess s ev) := by
  obtain ⟨hle, hshape, hal, hsv⟩ := h
  have hcons : ConsistentSnapshot extract s.progress :=
    aligned_consistent extract hal
      (hshape ▸ pids_nodup hndI hdisj hndT s.i)
  by_cases hi : s.i < toProcess.length
  · have htake : toProcess.take (s.i + 1)
        = toProcess.take s.i ++ [toProcess.get ⟨s.i, hi⟩] := by
      simpa using (List.take_concat_get toProcess s.i hi).symm
    have hsvPause : SavesOk extract (pauseBlock pauseEvery s) := by
      unfold pauseBlock
      split
      · intro snap hm
        simp at hm
        subst hm
        exact hcons
      · intro snap hm
        simp at hm
    have hsvWaitFetch : SavesOk extract
        [TraceEv.wait (E := E) delay,
         TraceEv.fetch (toProcess.get ⟨s.i, hi⟩).id s.progress.processedIds] := by
      intro snap hm
      simp at hm
    unfold step
    rw [dif_pos hi]
    cases ev with
    | ok r =>
        have hshapenew : (recordResult extract (toProcess.get ⟨s.i, hi⟩) r s.progress).processedIds
            = initProg.processedIds ++ (toProcess.take (s.i + 1)).map TeamMember.id := by
          simp only [recordResult]
          rw [hshape, htake, List.map_append, List.append_assoc]
          simp
        have halnew : Aligned extract
            (recordResult extract (toProcess.get ⟨s.i, hi⟩) r s.progress) := by
          obtain ⟨pairs, h1, h2⟩ := hal
          refine ⟨pairs ++ [(toProcess.get ⟨s.i, hi⟩, r)], ?_, ?_⟩
          · simp [recordResult, h1]
          · simp [recordResult, h2]
        have hconsnew : ConsistentSnapshot extract
            (recordResult extract (toProcess.get ⟨s.i, hi⟩) r s.progress) :=
          aligned_consistent extract halnew
            (hshapenew ▸ pids_nodup hndI hdisj hndT (s.i + 1))
        refine ⟨hi, hshapenew, halnew, ?_⟩
        dsimp only
        split
        · refine savesOk_append (savesOk_append (savesOk_append hsv hsvPause) hsvWaitFetch) ?_
          intro snap hm
          simp at hm
          subst hm
          exact hconsnew
        · exact savesOk_append (savesOk_append hsv hsvPause) hsvWaitFetch
    | err =>
        refine ⟨hle, hshape, hal, ?_⟩
        refine savesOk_append (savesOk_append (savesOk_append hsv hsvPause) hsvWaitFetch) ?_
        intro snap hm
        simp at hm
        subst hm
        exact hcons
  · unfold step
    rw [dif_neg hi]
    exact ⟨hle, hshape, hal, hsv⟩

theorem run_ckptInv {E P : Type} (extract : TeamMember → Option P → E)
    (delay pauseEvery : Nat) {initProg : Progress E} {toProcess : List TeamMember}
    (hndI : initProg.processedIds.Nodup)
    (hdisj : ∀ m ∈ toProcess, m.id ∉ initProg.processedIds)
    (hndT : (toProcess.map TeamMember.id).Nodup)
    (events : List (IterEvent P)) (s : LoopState E)
    (h : CkptInv extract initProg toProcess s) :
    CkptInv extract initProg toProcess (run extract delay pauseEvery toProcess s events) := by
  induction events generalizing s with
  | nil => exact h
  | cons ev evs ih =>
      exact ih _ (step_ckptInv extract delay pauseEvery hndI hdisj hndT s ev h)

end EnrichInvestors

/-- C2: starting from a loaded checkpoint whose `processedIds` and
results are aligned, every snapshot the run saves — the periodic
saves, the pre-pause saves, the defensive-catch saves and the final
save — is consistent: no id appears twice, the number of ids equals
the number of result entries, and the k-th entry is the (possibly
"not found") result extracted for a member carrying the k-th id. -/
theorem C2_checkpoint_consistency (E P : Type) (extract : TeamMember → Option P → E)
    (delay pauseEvery limit : Nat) (members : List TeamMember)
    (initProg : EnrichInvestors.Progress E)
    (hndM : (members.map TeamMember.id).Nodup)
    (hndI : initProg.processedIds.Nodup)
    (hal : EnrichInvestors.Aligned extract initProg)
    (events : List (EnrichInvestors.IterEvent P)) :
    ∀ snap, EnrichInvestors.TraceEv.save snap ∈
        (EnrichInvestors.runEnrich extract delay pauseEvery
          (EnrichInvestors.computeToProcess members initProg.processedIds limit)
          (EnrichInvestors.initState initProg) events).trace
      → EnrichInvestors.ConsistentSnapshot extract snap := by
  have hdisj := EnrichInvestors.computeToProcess_not_processed members initProg.processedIds limit
  have hndT := EnrichInvestors.computeToProcess_nodup members initProg.processedIds limit hndM
  have hinit : EnrichInvestors.CkptInv extract initProg
      (EnrichInvestors.computeToProcess members initProg.processedIds limit)
      (EnrichInvestors.initState initProg) := by
    refine ⟨Nat.zero_le _, ?_, hal, ?_⟩
    · simp [EnrichInvestors.initState]
    · intro snap hm
      simp [EnrichInvestors.initState] at hm
  have hrun := EnrichInvestors.run_ckptInv extract delay pauseEvery hndI hdisj hndT events _ hinit
  intro snap hm
  unfold EnrichInvestors.runEnrich at hm
  by_cases hc : (EnrichInvestors.run extract delay pauseEvery
      (EnrichInvestors.computeToProcess members initProg.processedIds limit)
      (EnrichInvestors.initState initProg) events).i
      < (EnrichInvestors.computeToProcess members initProg.processedIds limit).length
  · rw [if_pos hc] at hm
    exact hrun.2.2.2 snap hm
  · rw [if_neg hc] at hm
    dsimp only at hm
    rcases List.mem_append.mp hm with hm | hm
    · exact hrun.2.2.2 snap hm
    · simp at hm
      subst hm
      exact EnrichInvestors.aligned_consistent extract hrun.2.2.1
        (hrun.2.1 ▸ EnrichInvestors.pids_nodup hndI hdisj hndT _)

/-- Witness for `C2_checkpoint_consistency`: a fresh run over two
members with a not-found result, a defensive retry of the second item,
and a success. -/
theorem C2_checkpoint_consistency_witness :
    (([mA, mB].map TeamMember.id).Nodup)
    ∧ ((emptyProgress String).processedIds.Nodup)
    ∧ EnrichInvestors.Aligned (fun m (_ : Option Unit) => m.id) (emptyProgress String)
    ∧ (∀ snap, EnrichInvestors.TraceEv.save snap ∈
          (EnrichInvestors.runEnrich (fun m (_ : Option Unit) => m.id) 1000 2
            (EnrichInvestors.computeToProcess [mA, mB] (emptyProgress String).processedIds 5)
            (EnrichInvestors.initState (emptyProgress String))
            [.ok none, .err, .ok (some ())]).trace
        → EnrichInvestors.ConsistentSnapshot (fun m (_ : Option Unit) => m.id) snap) :=
  ⟨by decide, by decide, ⟨[], rfl, rfl⟩,
    C2_checkpoint_consistency String Unit (fun m _ => m.id) 1000 2 5 [mA, mB]
      (emptyProgress String) (by decide) (by decide) ⟨[], rfl, rfl⟩
      [.ok none, .err, .ok (some ())]⟩

namespace EnrichInvestors

/-- Scans a trace and checks that every `pause` is immediately
preceded by a `save`; `prev` carries the previous event. -/
def pausesSavePreceded {E : Type} : Option (TraceEv E) → List (TraceEv E) → Bool
  | _, [] => true
  | prev, e :: rest =>
      (match e, prev with
       | TraceEv.pause, some (TraceEv.save _) => true
       | TraceEv.pause, _ => false
       | _, _ => true)
      && pausesSavePreceded (some e) rest

/-- Checks that a trace segment contains no `pause` at all. -/
def noPause {E : Type} (t : List (TraceEv E)) : Bool :=
  t.all (fun e => match e with | TraceEv.pause => false | _ => true)

theorem pausesSavePreceded_of_noPause {E : Type} {t : List (TraceEv E)}
    (h : noPause t = true) (q : Option (TraceEv E)) :
    pausesSavePreceded q t = true := by
  induction t generalizing q with
  | nil => rfl
  | cons e rest ih =>
      simp [noPause] at h
      obtain ⟨he, hrest⟩ := h
      have hr := ih (by simpa [noPause] using hrest)
      cases e
      case pause => simp at he
      all_goals simp [pausesSavePreceded, hr]

theorem pausesSavePreceded_append {E : Type} {t u : List (TraceEv E)}
    (p : Option (TraceEv E)) (ht : pausesSavePreceded p t = true)
    (hu : ∀ q, pausesSavePreceded q u = true) :
    pausesSavePreceded p (t ++ u) = true := by
  induction t generalizing p with
  | nil => simpa using hu p
  | cons e rest ih =>
      simp only [pausesSavePreceded, Bool.and_eq_true, List.cons_append] at ht ⊢
      exact ⟨ht.1, ih _ ht.2⟩

theorem pausesSavePreceded_pauseBlock_append {E : Type} (pauseEvery : Nat)
    (s : LoopState E) {rest : List (TraceEv E)} (hrest : noPause rest = true)
    (q : Option (TraceEv E)) :
    pausesSavePreceded q (pauseBlock pauseEvery s ++ rest) = true := by
  unfold pauseBlock
  split
  · simp only [List.cons_append, List.nil_append, pausesSavePreceded, Bool.and_eq_true]
    exact ⟨trivial, trivial, pausesSavePreceded_of_noPause hrest _⟩
  · simpa using pausesSavePreceded_of_noPause hrest q

theorem step_pausesOk {E P : Type} (extract : TeamMember → Option P → E)
    (delay pauseEvery : Nat) (toProcess : List TeamMember)
    (s : LoopState E) (ev : IterEvent P)
    (h : pausesSavePreceded none s.trace = true) :
    pausesSavePreceded none (step extract delay pauseEvery toProcess s ev).trace = true := by
  by_cases hi : s.i < toProcess.length
  · unfold step
    rw [dif_pos hi]
    cases ev with
    | ok r =>
        dsimp only
        split
        · simp only [List.append_assoc]
          refine pausesSavePreceded_append none h ?_
          intro q
          refine pausesSavePreceded_pauseBlock_append pauseEvery s ?_ q
          rfl
        · simp only [List.append_assoc]
          refine pausesSavePreceded_append none h ?_
          intro q
          refine pausesSavePreceded_pauseBlock_append pauseEvery s ?_ q
          rfl
    | err =>
        dsimp only
        simp only [List.append_assoc]
        refine pausesSavePreceded_append none h ?_
        intro q
        refine pausesSavePreceded_pauseBlock_append pauseEvery s ?_ q
        rfl
  · unfold step
    rw [dif_neg hi]
    exact h

theorem run_pausesOk {E P : Type} (extract : TeamMember → Option P → E)
    (delay pauseEvery : Nat) (toProcess : List TeamMember)
    (events : List (IterEvent P)) (s : LoopState E)
    (h : pausesSavePreceded none s.trace = true) :
    pausesSavePreceded none (run extract delay pauseEvery toProcess s events).trace = true := by
  induction events generalizing s with
  | nil => exact h
  | cons ev evs ih =>
      exact ih _ (step_pausesOk extract delay pauseEvery toProcess s ev h)

end EnrichInvestors

/-- C8: with `pause_every_n = 2`, a run of 5 successful items pauses
exactly twice — after items 2 and 4, before processing the next item —
and each pause is immediately preceded by a checkpoint save of the
progress at that point (the full trace is computed exactly); moreover
in every run whatsoever, every `pause` in the trace is immediately
preceded by a `save`. -/
theorem C8_batch_pause_after_save :
    ((EnrichInvestors.runEnrich (fun m (_ : Option Unit) => m.id) 1000 2
        [mA, mB, mC, mD, mE]
        (EnrichInvestors.initState (emptyProgress String))
        [.ok (some ()), .ok (some ()), .ok (some ()), .ok (some ()),
         .ok (some ())]).trace
      = [EnrichInvestors.TraceEv.wait 1000,
         EnrichInvestors.TraceEv.fetch mA.id [],
         EnrichInvestors.TraceEv.wait 1000,
         EnrichInvestors.TraceEv.fetch mB.id [mA.id],
         EnrichInvestors.TraceEv.save
           { processedIds := [mA.id, mB.id]
             enrichedMembers := [mA.id, mB.id]
             statsTotal := 2, statsEnriched := 2, statsNotFound := 0
             statsNoLinkedIn := 0 },
         EnrichInvestors.TraceEv.pause,
         EnrichInvestors.TraceEv.wait 1000,
         EnrichInvestors.TraceEv.fetch mC.id [mA.id, mB.id],
         EnrichInvestors.TraceEv.wait 1000,
         EnrichInvestors.TraceEv.fetch mD.id [mA.id, mB.id, mC.id],
         EnrichInvestors.TraceEv.save
           { processedIds := [mA.id, mB.id, mC.id, mD.id]
             enrichedMembers := [mA.id, mB.id, mC.id, mD.id]
             statsTotal := 4, statsEnriched := 4, statsNotFound := 0
             statsNoLinkedIn := 0 },
         EnrichInvestors.TraceEv.pause,
         EnrichInvestors.TraceEv.wait 1000,
         EnrichInvestors.TraceEv.fetch mE.id [mA.id, mB.id, mC.id, mD.id],
         EnrichInvestors.TraceEv.save
           { processedIds := [mA.id, mB.id, mC.id, mD.id, mE.id]
             enrichedMembers := [mA.id, mB.id, mC.id, mD.id, mE.id]
             statsTotal := 5, statsEnriched := 5, statsNotFound := 0
             statsNoLinkedIn := 0 }])
    ∧ (∀ (E P : Type) (extract : TeamMember → Option P → E)
        (delay pauseEvery : Nat) (toProcess : List TeamMember)
        (initProg : EnrichInvestors.Progress E)
        (events : List (EnrichInvestors.IterEvent P)),
      EnrichInvestors.pausesSavePreceded none
        (EnrichInvestors.runEnrich extract delay pauseEvery toProcess
          (EnrichInvestors.initState initProg) events).trace = true) := by
  constructor
  · decide
  · intro E P extract delay pauseEvery toProcess initProg events
    have hrun := EnrichInvestors.run_pausesOk extract delay pauseEvery toProcess events
      (EnrichInvestors.initState initProg) (by rfl)
    unfold EnrichInvestors.runEnrich
    by_cases hc : (EnrichInvestors.run extract delay pauseEvery toProcess
        (EnrichInvestors.initState initProg) events).i < toProcess.length
    · rw [if_pos hc]
      exact hrun
    · rw [if_neg hc]
      dsimp only
      refine EnrichInvestors.pausesSavePreceded_append none hrun ?_
      intro q
      rfl

/-- C9 fails as stated: in the full scraper's Phase-2 loop, when an
exception escapes into the per-item `catch` (lines 1367–1375), the
slug *is* pushed to `processedSlugs` and the loop advances to the next
item, with no forced checkpoint save and no base-delay wait — the
opposite of re-attempting the same item. -/
theorem C9_counterexample :
    (FullScraper.processSlug (I := Unit) (T := Unit) (R := Unit) 2000 10
        ⟨"inv-9", "fund-x"⟩
        { processedSlugs := [], investors := [], teamMembers := [], investments := [] }
        0 0 FullScraper.SIterEvent.err).1.processedSlugs = ["fund-x"]
    ∧ (FullScraper.processSlug (I := Unit) (T := Unit) (R := Unit) 2000 10
        ⟨"inv-9", "fund-x"⟩
        { processedSlugs := [], investors := [], teamMembers := [], investments := [] }
        0 0 FullScraper.SIterEvent.err).2.1 = 1
    ∧ (FullScraper.processSlug (I := Unit) (T := Unit) (R := Unit) 2000 10
        ⟨"inv-9", "fund-x"⟩
        { processedSlugs := [], investors := [], teamMembers := [], investments := [] }
        0 0 FullScraper.SIterEvent.err).2.2.2
        = [FullScraper.STraceEv.wait 2000, FullScraper.STraceEv.fetchInvestor "fund-x"] := by
  exact ⟨rfl, rfl, rfl⟩

/-- C9 amended: in the enrichment script the defensive catch behaves
exactly as claimed — it force-saves the checkpoint, sleeps one
`INITIAL_RETRY_DELAY`, leaves `progress` untouched (the item is not
marked processed) and leaves `i` unchanged so the same item is
re-attempted; in the full scraper, however, the per-item catch marks
the item as processed and advances to the next item. -/
theorem C9_defensive_catch_amended :
    (∀ (E P : Type) (extract : TeamMember → Option P → E) (delay pauseEvery : Nat)
        (toProcess : List TeamMember) (s : EnrichInvestors.LoopState E)
        (h : s.i < toProcess.length),
      (EnrichInvestors.step extract delay pauseEvery toProcess s
          (EnrichInvestors.IterEvent.err (P := P))).i = s.i
      ∧ (EnrichInvestors.step extract delay pauseEvery toProcess s
          (EnrichInvestors.IterEvent.err (P := P))).progress = s.progress
      ∧ (EnrichInvestors.step extract delay pauseEvery toProcess s
          (EnrichInvestors.IterEvent.err (P := P))).trace
          = s.trace ++ EnrichInvestors.pauseBlock pauseEvery s
            ++ [EnrichInvestors.TraceEv.wait delay,
                EnrichInvestors.TraceEv.fetch (toProcess.get ⟨s.i, h⟩).id
                  s.progress.processedIds,
                EnrichInvestors.TraceEv.save s.progress,
                EnrichInvestors.TraceEv.wait EnrichInvestors.INITIAL_RETRY_DELAY])
    ∧ (∀ (I T R : Type) (delay saveEvery : Nat) (entry : FullScraper.SlugEntry)
        (prog : FullScraper.SProgress I T R) (processed cib : Nat),
      (FullScraper.processSlug delay saveEvery entry prog processed cib
          FullScraper.SIterEvent.err).1.processedSlugs
          = prog.processedSlugs ++ [entry.slug]
      ∧ (FullScraper.processSlug delay saveEvery entry prog processed cib
          FullScraper.SIterEvent.err).2.1 = processed + 1) := by
  constructor
  · intro E P extract delay pauseEvery toProcess s h
    unfold EnrichInvestors.step
    rw [dif_pos h]
    refine ⟨rfl, rfl, ?_⟩
    simp
  · intro I T R delay saveEvery entry prog processed cib
    exact ⟨rfl, rfl⟩

/-- Witness for `C9_defensive_catch_amended` at a one-member work set. -/
theorem C9_defensive_catch_amended_witness :
    (EnrichInvestors.initState (emptyProgress String)).i < [mA].length
    ∧ ((EnrichInvestors.step (fun m (_ : Option Unit) => m.id) 1000 50 [mA]
          (EnrichInvestors.initState (emptyProgress String))
          (EnrichInvestors.IterEvent.err (P := Unit))).i
        = (EnrichInvestors.initState (emptyProgress String)).i
      ∧ (EnrichInvestors.step (fun m (_ : Option Unit) => m.id) 1000 50 [mA]
          (EnrichInvestors.initState (emptyProgress String))
          (EnrichInvestors.IterEvent.err (P := Unit))).progress
        = (EnrichInvestors.initState (emptyProgress String)).progress
      ∧ (EnrichInvestors.step (fun m (_ : Option Unit) => m.id) 1000 50 [mA]
          (EnrichInvestors.initState (emptyProgress String))
          (EnrichInvestors.IterEvent.err (P := Unit))).trace
        = (EnrichInvestors.initState (emptyProgress String)).trace
          ++ EnrichInvestors.pauseBlock 50 (EnrichInvestors.initState (emptyProgress String))
          ++ [EnrichInvestors.TraceEv.wait 1000,
              EnrichInvestors.TraceEv.fetch
                ([mA].get ⟨(EnrichInvestors.initState (emptyProgress String)).i,
                  by decide⟩).id
                (EnrichInvestors.initState (emptyProgress String)).progress.processedIds,
              EnrichInvestors.TraceEv.save
                (EnrichInvestors.initState (emptyProgress String)).progress,
              EnrichInvestors.TraceEv.wait EnrichInvestors.INITIAL_RETRY_DELAY]) :=
  ⟨by decide,
    C9_defensive_catch_amended.1 String Unit (fun m _ => m.id) 1000 50 [mA]
      (EnrichInvestors.initState (emptyProgress String)) (by decide)⟩
